import Mathlib

/-!
Verification development for the bo-cc WARC form-mining pipeline
(`src/lib.rs` and its binaries).  The Rust code is shallowly embedded:
pure functions become Lean functions over `List Char` / `List Nat`
(machine `i64` counters become `Int`, `u64` become `Nat`), the
HTTP client's atomics become an explicit state record threaded through
a step function, and the external crates (the `tl` HTML parser, the
chardetng detector, `encoding_rs`) appear as explicit oracle parameters
whose outputs the embedded code consumes exactly as the Rust does.
-/

namespace BoCC

/-! ## Polite fetcher (Client) — src/lib.rs lines 33-128

`INITIAL_WAIT` and `MAX_WAIT` are the constants at lib.rs:34-35.
`reqwest::StatusCode::is_success` is `200 ≤ s < 300`;
`is_server_error` is `500 ≤ s < 600`. -/

def INITIAL_WAIT : Nat := 0

def MAX_WAIT : Nat := 30

def isSuccess (s : Nat) : Bool := 200 ≤ s && s < 300

def isServerError (s : Nat) : Bool := 500 ≤ s && s < 600

/-- The two atomics of `Client` (lib.rs:48-54): `last_req` is the offset in
seconds since `started_at` of the last request, `wait_time` the current
backoff.  `started_at` itself is elided: all times are seconds since it. -/
structure ClientState where
  lastReq : Nat
  waitTime : Nat
  deriving Repr, DecidableEq

/-- `Client::new` (lib.rs:57-69): both atomics start at `INITIAL_WAIT`. -/
def clientNew : ClientState := ⟨INITIAL_WAIT, INITIAL_WAIT⟩

/-- `Client::wait_for_our_turn` (lib.rs:71-91).  If the wait time is 0 it
returns at once, touching nothing.  Otherwise it busy-polls until enough
time has passed and then stores the current offset into `last_req`; `now`
is the offset (seconds since `started_at`) at which the loop exits. -/
def waitForOurTurn (st : ClientState) (now : Nat) : ClientState :=
  if st.waitTime = 0 then st else { st with lastReq := now }

/-- The wait-time update performed on a 5xx response (lib.rs:113-123):
compare-exchange `wait_time` from `w` to `w + 1`, but only when
`w < MAX_WAIT`. -/
def bumpWait (w : Nat) : Nat := if w < MAX_WAIT then w + 1 else w

/-- `Client::get` (lib.rs:93-128) over a finite oracle of responses.  Each
list element is `(now, status)`: the time at which `wait_for_our_turn`
returns for that iteration and the HTTP status the server then answers
with.  `none` means the response list was exhausted while the loop was
still retrying (the real loop would keep going). -/
def getRun (st : ClientState) : List (Nat × Nat) → Option (Nat × ClientState)
  | [] => none
  | (now, s) :: rest =>
    let st1 := waitForOurTurn st now
    if isSuccess s then some (s, { st1 with waitTime := INITIAL_WAIT })
    else if isServerError s then
      getRun { st1 with waitTime := bumpWait st1.waitTime } rest
    else some (s, st1)

/-! ## Archive summaries — src/lib.rs lines 202-233 -/

structure URLSummary where
  url : String
  with_patterns : List String
  deriving Repr, DecidableEq

structure ArchiveSummary where
  nr_unknown_encoding : Int
  nr_urls_without_patterns : Int
  nr_forms_without_patterns : Int
  urls_with_pattern_forms : List URLSummary
  deriving Repr, DecidableEq

/-- `ArchiveSummary::default()` — all counters 0, empty list. -/
def ArchiveSummary.zero : ArchiveSummary := ⟨0, 0, 0, []⟩

/-- `ArchiveSummary::merge` (lib.rs:222-233): pairwise sum of the three
counters, and `self.urls_with_pattern_forms` extended by the other's. -/
def ArchiveSummary.merge (a b : ArchiveSummary) : ArchiveSummary :=
  { nr_unknown_encoding := a.nr_unknown_encoding + b.nr_unknown_encoding
    nr_urls_without_patterns :=
      a.nr_urls_without_patterns + b.nr_urls_without_patterns
    nr_forms_without_patterns :=
      a.nr_forms_without_patterns + b.nr_forms_without_patterns
    urls_with_pattern_forms :=
      a.urls_with_pattern_forms ++ b.urls_with_pattern_forms }

/-! ## Storage filename — src/lib.rs lines 183-185 -/

/-- One step of Rust's `str::replace('/', "!")`: the pattern is a single
character, so the replacement is a character map. -/
def encodeChar (c : Char) : Char := if c = '/' then '!' else c

/-- `to_storage_fn` (lib.rs:183-185). -/
def to_storage_fn (warc_url : String) : String :=
  "forms.d/" ++ String.mk (warc_url.data.map encodeChar) ++ ".json.xz"

/-! ## Charset selection — src/lib.rs lines 281-334

`get_encoding_by_header` scans the `httparse` header array (the entries
before the first `EMPTY_HEADER` sentinel, i.e. the parsed headers in
order, modelled directly as a list), looking with `find` for a header
whose name equals the *exact* string "Content-type", splits its value on
"; charset=" and feeds the second piece to `Encoding::for_label`.  The
WHATWG label table of `encoding_rs` is external, so `for_label` is an
oracle parameter; `ε` stands for `&'static Encoding`. -/

/-- Split a character list at the first occurrence of the (non-empty)
separator: the part before it and the part after it, or `none` when the
separator does not occur. -/
def splitFirst (sep : List Char) : List Char → Option (List Char × List Char)
  | [] => none
  | c :: rest =>
    if sep.isPrefixOf (c :: rest) then some ([], (c :: rest).drop sep.length)
    else
      match splitFirst sep rest with
      | none => none
      | some (pre, post) => some (c :: pre, post)

def sepCharset : List Char := "; charset=".data

/-- Rust `content_type.split("; charset=")` with one `next()` skipped and
the second element taken: the piece between the first occurrence of the
separator and the following occurrence (or the end). -/
def charsetLabel (value : String) : Option String :=
  match splitFirst sepCharset value.data with
  | none => none
  | some (_, post) =>
    match splitFirst sepCharset post with
    | none => some (String.mk post)
    | some (second, _) => some (String.mk second)

/-- `get_encoding_by_header` (lib.rs:281-293) over the parsed header list
(name, value) and the `Encoding::for_label` oracle. -/
def get_encoding_by_header {ε : Type} (forLabel : String → Option ε)
    (headers : List (String × String)) : Option ε :=
  (headers.find? (fun h => h.1 = "Content-type")).bind
    (fun h => (charsetLabel h.2).bind forLabel)

/-- The encoding `decode_body` (lib.rs:295-334) decodes with: the one
declared by the header when `get_encoding_by_header` finds one, otherwise
the chardetng detector's guess (an oracle value computed from the body,
irrelevant to which side is taken). -/
def chosenEncoding {ε : Type} (forLabel : String → Option ε)
    (headers : List (String × String)) (detectorGuess : ε) : ε :=
  match get_encoding_by_header forLabel headers with
  | some e => e
  | none => detectorGuess

/-! ## Form extraction — src/lib.rs lines 379-417

`extract_forms` first runs `decode_body` on the raw payload (modelled by
the oracle `decode`, covering the httparse split, charset choice and
`encoding_rs` decode: `Except` for its `Result`), then parses the body
with the external `tl` parser.  The parser is modelled by the oracle
`parse`, returning the `<form>` nodes in document order, each carrying
its source boundaries `(start, end)` from `form.boundaries(parser)` and
whether the descendant check at lib.rs:394-405 (an `<input>` child with a
`pattern` / `data-val-regex-pattern` / `ng-pattern` attribute) succeeds. -/

structure FormNode where
  start : Nat
  stop : Nat
  qualifies : Bool
  deriving Repr, DecidableEq

def closingTag : List Char := "</form>".data

/-- Rust `tag_text.contains("</form>")` — substring containment. -/
def containsClosing (t : List Char) : Bool := decide (closingTag <:+: t)

/-- Rust `body[start..=end]` — the inclusive slice of the decoded body. -/
def sliceIncl (body : List Char) (s e : Nat) : List Char :=
  (body.drop s).take (e + 1 - s)

/-- The `for form in forms` loop of `extract_forms` (lib.rs:391-415):
count every form; for a qualifying form take its source slice, fail if it
lacks the literal "</form>", otherwise push it. -/
def extractLoop (body : List Char) : List FormNode → Except String (Int × List String)
  | [] => Except.ok (0, [])
  | f :: rest =>
    if f.qualifies then
      if containsClosing (sliceIncl body f.start f.stop) then
        match extractLoop body rest with
        | Except.ok (n, fs) =>
          Except.ok (n + 1, String.mk (sliceIncl body f.start f.stop) :: fs)
        | Except.error e => Except.error e
      else Except.error "No closing tag in form: assuming broken HTML"
    else
      match extractLoop body rest with
      | Except.ok (n, fs) => Except.ok (n + 1, fs)
      | Except.error e => Except.error e

/-- `extract_forms` (lib.rs:379-417): decode the payload, parse it, run
the loop. -/
def extract_forms (decode : List Nat → Except String (List Char))
    (parse : List Char → List FormNode) (content : List Nat) :
    Except String (Int × List String) :=
  match decode content with
  | Except.error e => Except.error e
  | Except.ok body => extractLoop body (parse body)

/-! ## Record analysis — src/lib.rs lines 235-278

`rust_warc::WarcRecord` headers use case-insensitive keys (`CaseString`),
so lookup compares lowercased names.  In the extractor-error branch the
missing-URI early return sits inside the interpolation of a `trace!`
call, and the `log` crate only evaluates macro arguments when the trace
level is enabled — hence the `traceEnabled` parameter. -/

structure WarcRecord where
  header : List (String × String)
  content : List Nat
  deriving Repr

/-- Character-wise lowercasing (the ASCII case folding `CaseString`
normalises with). -/
def lowerStr (s : String) : String := String.mk (s.data.map Char.toLower)

/-- `record.header.get(&name.into())` with `CaseString`'s case-insensitive
equality. -/
def headerGet (hs : List (String × String)) (name : String) : Option String :=
  (hs.find? (fun p => lowerStr p.1 = lowerStr name)).map (fun p => p.2)

/-- `ArchiveSummary::from_record` (lib.rs:235-278), parametrised by the
decode / parse oracles that `extract_forms` consumes and by whether trace
logging is enabled.  `none` models the `?`-style early returns (record
skipped, no contribution). -/
def from_record (traceEnabled : Bool)
    (decode : List Nat → Except String (List Char))
    (parse : List Char → List FormNode)
    (record : WarcRecord) : Option ArchiveSummary :=
  match headerGet record.header "warc-identified-payload-type" with
  | none => none
  | some content_type =>
    if !(content_type = "text/html" || content_type = "application/xhtml+xml") then
      none
    else
      match extract_forms decode parse record.content with
      | Except.error _ =>
        if traceEnabled then
          match headerGet record.header "warc-target-uri" with
          | none => none
          | some _ => some { ArchiveSummary.zero with nr_unknown_encoding := 1 }
        else some { ArchiveSummary.zero with nr_unknown_encoding := 1 }
      | Except.ok (nr_forms, with_) =>
        if nr_forms = 0 || with_.isEmpty then
          some { ArchiveSummary.zero with nr_urls_without_patterns := 1 }
        else
          match headerGet record.header "warc-target-uri" with
          | none => none
          | some url =>
            some { ArchiveSummary.zero with
                     nr_forms_without_patterns := nr_forms - with_.length
                     urls_with_pattern_forms := [⟨url, with_⟩] }

/-! ## Pattern enumeration — src/lib.rs lines 336-377

`patterns_in` re-parses a stored form with `tl` and runs the selector
`input[pattern],input[data-val-regex-pattern],input[ng-pattern]`, i.e.
the `<input>` tags carrying at least one of the three attributes, in
document order.  The fragment's `<input>` tags are the oracle input.
`tl`'s `Attributes::get` yields `Option<Option<Bytes>>`: absent, present
without a value, or present with raw bytes; `try_as_utf8_str` succeeds
only on valid UTF-8, modelled by the oracle `dec`. -/

structure InputTag where
  attrs : List (String × Option (List Nat))
  deriving Repr

/-- `tag.attributes().get(name)`: `none` when absent, `some none` when
present valueless, `some (some bytes)` otherwise. -/
def attrGet (tag : InputTag) (name : String) : Option (Option (List Nat)) :=
  (tag.attrs.find? (fun p => p.1 = name)).map (fun p => p.2)

/-- One attribute's contribution: `get(name).flatten()
.and_then(try_as_utf8_str)`, pushed when it all succeeds. -/
def attrPattern (dec : List Nat → Option String) (tag : InputTag)
    (name : String) : List String :=
  match (attrGet tag name).join.bind dec with
  | none => []
  | some p => [p]

/-- The body of the `for tag in inputs` loop (lib.rs:346-374): the three
attribute names probed in order. -/
def tagPatterns (dec : List Nat → Option String) (tag : InputTag) : List String :=
  attrPattern dec tag "pattern" ++ attrPattern dec tag "data-val-regex-pattern"
    ++ attrPattern dec tag "ng-pattern"

/-- The `[pattern]`-presence test of the query selector: the tag carries
at least one of the three attributes (with or without a value). -/
def hasPatternAttr (tag : InputTag) : Bool :=
  (attrGet tag "pattern").isSome || (attrGet tag "data-val-regex-pattern").isSome
    || (attrGet tag "ng-pattern").isSome

/-- `patterns_in` (lib.rs:336-377) over the fragment's `<input>` tags in
document order: the selector keeps those with one of the attributes, the
loop collects their pattern values. -/
def patterns_in (dec : List Nat → Option String) (inputs : List InputTag) :
    List String :=
  ((inputs.filter hasPatternAttr).map (tagPatterns dec)).flatten

/-- The spec's description of `enumerate_patterns` (§4.8): for each
`<input>` of the fragment — with no selector filtering — emit the three
attribute values in order when present. -/
def patterns_in_spec (dec : List Nat → Option String) (inputs : List InputTag) :
    List String :=
  (inputs.map (tagPatterns dec)).flatten

/-- Case-insensitive check that a decoded slice begins with the five
characters of a `<form` opening tag. -/
def startsWithFormCI (t : List Char) : Bool :=
  (t.take 5).map Char.toLower = "<form".data

/-! ## Concrete fixtures used by witnesses and counterexamples -/

/-- A label table resolving only the label utf-8 (encodings numbered). -/
def forLabel0 : String → Option Nat :=
  fun s => if s = "utf-8" then some 1 else none

/-- A `decode_body` oracle that always fails (undecodable charset). -/
def decode0 : List Nat → Except String (List Char) :=
  fun _ => Except.error "Error decoding body"

/-- A parser oracle returning no form nodes. -/
def parse0 : List Char → List FormNode := fun _ => []

/-- An HTML record with no `WARC-Target-URI` header. -/
def rec0 : WarcRecord :=
  ⟨[("WARC-Identified-Payload-Type", "text/html")], []⟩

/-- An HTML body truncated inside a qualifying form (23 characters, no
closing tag). -/
def brokenBody : List Char := "<form><input pattern=x>".data

/-- A `decode_body` oracle producing the truncated body. -/
def decode1 : List Nat → Except String (List Char) :=
  fun _ => Except.ok brokenBody

/-- A parser oracle seeing one qualifying form spanning the whole
truncated body. -/
def parse1 : List Char → List FormNode := fun _ => [⟨0, 22, true⟩]

/-- An HTML record that does carry a `WARC-Target-URI` header. -/
def rec2 : WarcRecord :=
  ⟨[("WARC-Identified-Payload-Type", "text/html"),
    ("WARC-Target-URI", "http://x/")], []⟩

/-- A complete qualifying form (30 characters). -/
def goodForm : String := "<form><input pattern=x></form>"

/-- A `decode_body` oracle producing the complete form. -/
def decode2 : List Nat → Except String (List Char) :=
  fun _ => Except.ok goodForm.data

/-- A parser oracle that sees one qualifying form spanning exactly the
complete-form body, and nothing in any other body. -/
def parse2 : List Char → List FormNode :=
  fun body => if body = goodForm.data then [⟨0, 29, true⟩] else []

/-- An HTML record with target URI u. -/
def rec3 : WarcRecord :=
  ⟨[("WARC-Identified-Payload-Type", "text/html"),
    ("WARC-Target-URI", "u")], []⟩

end BoCC

namespace BoCC

/-! ## Helper lemmas -/

theorem success_not_server {s : Nat} (h : isSuccess s = true) :
    isServerError s = false := by
  simp only [isSuccess, Bool.and_eq_true, decide_eq_true_eq] at h
  simp only [isServerError, Bool.and_eq_false_iff, decide_eq_false_iff_not]
  omega

theorem encodeChar_inj {a b : Char} (ha : a ≠ '!') (hb : b ≠ '!')
    (h : encodeChar a = encodeChar b) : a = b := by
  unfold encodeChar at h
  by_cases h1 : a = '/' <;> by_cases h2 : b = '/' <;>
    simp [h1, h2] at h <;> first
    | exact h1.trans h2.symm
    | exact absurd h.symm hb
    | exact absurd h ha
    | exact h

theorem encode_map_inj {l1 l2 : List Char}
    (h1 : '!' ∉ l1) (h2 : '!' ∉ l2)
    (h : l1.map encodeChar = l2.map encodeChar) : l1 = l2 := by
  induction l1 generalizing l2 with
  | nil => cases l2 with
    | nil => rfl
    | cons b t => simp at h
  | cons a t ih =>
    cases l2 with
    | nil => simp at h
    | cons b t2 =>
      simp only [List.map_cons, List.cons.injEq] at h
      simp only [List.mem_cons, not_or] at h1 h2
      have hab : a = b :=
        encodeChar_inj (fun he => h1.1 he.symm) (fun he => h2.1 he.symm) h.1
      rw [hab, ih h1.2 h2.2 h.2]

/-! ## Claim C2 — merge as a commutative monoid -/

/-- C2 counterexample: `ArchiveSummary::merge` is not commutative.  With
two summaries holding distinct single-element `urls_with_pattern_forms`
lists, the two merge orders concatenate the lists in different orders,
so `merge(A₁, A₂) ≠ merge(A₂, A₁)` as the claim states equality. -/
theorem c2_merge_comm_cex :
    ¬ (ArchiveSummary.merge ⟨0, 0, 0, [⟨"a", []⟩]⟩ ⟨0, 0, 0, [⟨"b", []⟩]⟩ =
       ArchiveSummary.merge ⟨0, 0, 0, [⟨"b", []⟩]⟩ ⟨0, 0, 0, [⟨"a", []⟩]⟩) := by
  decide

/-- C2 (amended): `merge` is pairwise sum on the three counters and list
concatenation on `urls_with_pattern_forms`; the default summary is a
two-sided identity, and the two merge orders agree on all counters and
produce permutations of one another on `urls_with_pattern_forms` (full
equality fails, see the counterexample). -/
theorem c2_merge_monoid_amended (a b : ArchiveSummary) :
    a.merge b = ⟨a.nr_unknown_encoding + b.nr_unknown_encoding,
        a.nr_urls_without_patterns + b.nr_urls_without_patterns,
        a.nr_forms_without_patterns + b.nr_forms_without_patterns,
        a.urls_with_pattern_forms ++ b.urls_with_pattern_forms⟩ ∧
    a.merge ArchiveSummary.zero = a ∧
    ArchiveSummary.zero.merge a = a ∧
    (a.merge b).nr_unknown_encoding = (b.merge a).nr_unknown_encoding ∧
    (a.merge b).nr_urls_without_patterns = (b.merge a).nr_urls_without_patterns ∧
    (a.merge b).nr_forms_without_patterns = (b.merge a).nr_forms_without_patterns ∧
    (a.merge b).urls_with_pattern_forms.Perm (b.merge a).urls_with_pattern_forms := by
  refine ⟨rfl, ?_, ?_, ?_, ?_, ?_, ?_⟩
  · simp [ArchiveSummary.merge, ArchiveSummary.zero]
  · simp [ArchiveSummary.merge, ArchiveSummary.zero]
  · simp [ArchiveSummary.merge, Int.add_comm]
  · simp [ArchiveSummary.merge, Int.add_comm]
  · simp [ArchiveSummary.merge, Int.add_comm]
  · exact List.perm_append_comm

/-! ## Claim C7 — storage filename encoding -/

/-- C7 counterexample: replacing every slash by a bang is not injective
on all strings — the URLs a/b and a!b collide, so the original URL
cannot in general be recovered from the filename. -/
theorem c7_storage_collision :
    to_storage_fn "a/b" = to_storage_fn "a!b" ∧ "a/b" ≠ "a!b" := by
  decide

/-- C7 (amended): the storage filename is forms.d/E.json.xz where E is
the WARC URL with every slash replaced by a bang, and the encoding is
injective — hence reversible — on URLs that do not themselves contain a
bang (which includes all Common Crawl WARC paths). -/
theorem c7_storage_inj (u v : String)
    (hu : '!' ∉ u.data) (hv : '!' ∉ v.data)
    (h : to_storage_fn u = to_storage_fn v) : u = v := by
  unfold to_storage_fn at h
  have hdata : ("forms.d/".data ++ u.data.map encodeChar) ++ ".json.xz".data =
      ("forms.d/".data ++ v.data.map encodeChar) ++ ".json.xz".data := by
    have h1 := congrArg String.data h
    simpa [String.data_append, List.append_assoc] using h1
  have h2 := List.append_cancel_right hdata
  have h3 := List.append_cancel_left h2
  have h4 := encode_map_inj hu hv h3
  cases u; cases v; exact congrArg String.mk h4

/-- C7 witness: the injectivity theorem applied at a concrete bang-free
URL. -/
theorem c7_storage_inj_witness :
    ('!' ∉ "crawl-data/x.warc.gz".data) ∧
      "crawl-data/x.warc.gz" = "crawl-data/x.warc.gz" :=
  ⟨by decide, c7_storage_inj "crawl-data/x.warc.gz" "crawl-data/x.warc.gz"
    (by decide) (by decide) rfl⟩

/-! ## Claim C1 — retry backoff -/

/-- C1 counterexample: the claim asserts an initial wait of 3 seconds
doubling up to a cap of 300; the code has `INITIAL_WAIT = 0` and
`MAX_WAIT = 30`, and on a 5xx the wait grows by one second (a wait of 3
becomes 4, not 6). -/
theorem c1_backoff_cex :
    INITIAL_WAIT = 0 ∧ MAX_WAIT = 30 ∧ bumpWait 3 = 4 ∧ bumpWait 3 ≠ 6 := by
  decide

/-- C1 (amended): on every all-5xx response sequence `Client::get` keeps
retrying (it consumes the whole oracle and returns nothing); each 5xx
advances the wait by `bumpWait`, which increments the wait by one second
up to the cap `MAX_WAIT = 30`, so after k consecutive 5xx from a fresh
client the wait is `min k MAX_WAIT`; any 2xx makes `get` return with the
wait reset to `INITIAL_WAIT = 0`. -/
theorem c1_backoff_amended (st : ClientState) (l : List (Nat × Nat)) :
    ((∀ p ∈ l, isServerError p.2 = true) → getRun st l = none) ∧
    (∀ now s rest, isSuccess s = true →
      getRun st ((now, s) :: rest) =
        some (s, { waitForOurTurn st now with waitTime := INITIAL_WAIT })) ∧
    (∀ now s rest, isSuccess s = false → isServerError s = true →
      getRun st ((now, s) :: rest) =
        getRun { waitForOurTurn st now with
                   waitTime := bumpWait (waitForOurTurn st now).waitTime } rest) ∧
    (∀ k, bumpWait^[k] INITIAL_WAIT = min k MAX_WAIT) := by
  refine ⟨?_, ?_, ?_, ?_⟩
  · intro hall
    induction l generalizing st with
    | nil => rfl
    | cons p rest ih =>
      obtain ⟨now, s⟩ := p
      have hs : isServerError s = true := hall (now, s) (by simp)
      have hns : isSuccess s = false := by
        cases hsucc : isSuccess s with
        | false => rfl
        | true => rw [success_not_server hsucc] at hs; cases hs
      simp only [getRun, hns, hs, if_false, if_true, Bool.false_eq_true]
      exact ih _ (fun q hq => hall q (by simp [hq]))
  · intro now s rest hs
    simp [getRun, hs]
  · intro now s rest hns hs
    simp [getRun, hns, hs]
  · intro k
    induction k with
    | zero => simp [INITIAL_WAIT]
    | succ n ih =>
      rw [Function.iterate_succ_apply', ih]
      unfold bumpWait
      rcases Nat.lt_or_ge n MAX_WAIT with h | h
      · rw [Nat.min_eq_left (Nat.le_of_lt h)]
        simp only [h, if_true]
        rw [Nat.min_eq_left h]
      · rw [Nat.min_eq_right h]
        simp only [Nat.lt_irrefl, if_false]
        rw [Nat.min_eq_right (Nat.le_succ_of_le h)]

/-- C1 witness: the amended theorem applied to a fresh client and the
concrete one-element all-503 sequence. -/
theorem c1_backoff_witness : getRun clientNew [(0, 503)] = none :=
  (c1_backoff_amended clientNew [(0, 503)]).1 (by decide)

/-! ## Claim C6 — get never returns a 5xx -/

/-- C6: whenever `Client::get` returns a response, its status is not a
server error; and a response that is neither 2xx nor 5xx (e.g. 4xx) is
returned immediately, with no retry and no backoff update. -/
theorem c6_get_no_server_error (st : ClientState) (l : List (Nat × Nat)) :
    (∀ s st', getRun st l = some (s, st') → isServerError s = false) ∧
    (∀ now s rest, isSuccess s = false → isServerError s = false →
      getRun st ((now, s) :: rest) = some (s, waitForOurTurn st now)) := by
  constructor
  · intro s st' h
    induction l generalizing st with
    | nil => cases h
    | cons p rest ih =>
      obtain ⟨now, x⟩ := p
      by_cases hx : isSuccess x = true
      · simp only [getRun, hx, if_true] at h
        cases h
        exact success_not_server hx
      · by_cases hsrv : isServerError x = true
        · simp only [getRun, hx, hsrv, if_true, if_false, Bool.false_eq_true] at h
          exact ih _ h
        · simp only [getRun, hx, hsrv, if_false, Bool.false_eq_true] at h
          cases h
          exact Bool.not_eq_true _ ▸ hsrv
  · intro now s rest hns hnsrv
    simp [getRun, hns, hnsrv]

/-- C6 witness: the theorem applied to a concrete run that returns a 404
at once. -/
theorem c6_get_no_server_error_witness :
    isServerError 404 = false ∧
      getRun clientNew [(0, 404)] = some (404, clientNew) :=
  ⟨(c6_get_no_server_error clientNew [(0, 404)]).1 404 clientNew (by decide),
   (c6_get_no_server_error clientNew [(0, 404)]).2 0 404 [] (by decide) (by decide)⟩

/-! ## Claim C10 — zero wait means no pacing -/

/-- C10: with a zero wait time `wait_for_our_turn` returns at once and
leaves the state — in particular `last_req` — untouched; a fresh client
starts with both atomics at 0; and as long as `get` sees no 5xx response
it returns with `last_req` unchanged and the wait still 0, so no request
timestamp is ever recorded before a server error raises the wait. -/
theorem c10_zero_wait_no_pacing (st : ClientState) (now : Nat)
    (l : List (Nat × Nat)) :
    (st.waitTime = 0 → waitForOurTurn st now = st) ∧
    (clientNew.waitTime = 0 ∧ clientNew.lastReq = 0) ∧
    (st.waitTime = 0 → (∀ p ∈ l, isServerError p.2 = false) →
      ∀ s st', getRun st l = some (s, st') →
        st'.lastReq = st.lastReq ∧ st'.waitTime = 0) := by
  refine ⟨?_, ⟨rfl, rfl⟩, ?_⟩
  · intro h
    simp [waitForOurTurn, h]
  · intro hw hall s st' h
    cases l with
    | nil => cases h
    | cons p rest =>
      obtain ⟨n0, x⟩ := p
      have hwait : waitForOurTurn st n0 = st := by simp [waitForOurTurn, hw]
      have hnsrv : isServerError x = false := hall (n0, x) (by simp)
      by_cases hx : isSuccess x = true
      · simp only [getRun, hwait, hx, if_true] at h
        cases h
        exact ⟨rfl, rfl⟩
      · simp only [getRun, hwait, hx, hnsrv, if_false, Bool.false_eq_true] at h
        cases h
        exact ⟨rfl, hw⟩

/-- C10 witness: the theorem applied to a fresh client and a single 404
response at time 5. -/
theorem c10_zero_wait_no_pacing_witness :
    waitForOurTurn clientNew 5 = clientNew ∧
      (clientNew.lastReq = clientNew.lastReq ∧ clientNew.waitTime = 0) :=
  ⟨(c10_zero_wait_no_pacing clientNew 5 [(5, 404)]).1 rfl,
   (c10_zero_wait_no_pacing clientNew 5 [(5, 404)]).2.2 rfl (by decide) 404
     clientNew (by decide)⟩

/-! ## Claim C5 — Content-type header matching -/

/-- C5 counterexample: the header lookup is case-sensitive.  A header
spelled content-type with a perfectly valid charset suffix is not found
(the declared encoding is ignored and the detector guess is used), while
the exact spelling Content-type is found. -/
theorem c5_content_type_case_cex :
    get_encoding_by_header forLabel0
        [("content-type", "text/html; charset=utf-8")] = none ∧
    chosenEncoding forLabel0
        [("content-type", "text/html; charset=utf-8")] 0 = 0 ∧
    get_encoding_by_header forLabel0
        [("Content-type", "text/html; charset=utf-8")] = some 1 := by
  refine ⟨rfl, rfl, rfl⟩

/-- C5 (amended): the lookup matches only a header named exactly
Content-type (case-sensitively): if no header has that exact name the
declared-charset path yields nothing and the statistical detector guess
is used, even when a differently-cased header carries a valid charset
suffix; when the exact spelling heads the list and its charset label
resolves, the declared encoding is chosen. -/
theorem c5_content_type_exact {ε : Type} (forLabel : String → Option ε)
    (headers : List (String × String)) (g : ε) :
    ((∀ p ∈ headers, p.1 ≠ "Content-type") →
      get_encoding_by_header forLabel headers = none ∧
        chosenEncoding forLabel headers g = g) ∧
    (∀ v e rest, (charsetLabel v).bind forLabel = some e →
      chosenEncoding forLabel (("Content-type", v) :: rest) g = e) := by
  constructor
  · intro hall
    have hfind : headers.find? (fun h => h.1 = "Content-type") = none := by
      rw [List.find?_eq_none]
      intro p hp
      simpa using hall p hp
    constructor
    · simp [get_encoding_by_header, hfind]
    · simp [chosenEncoding, get_encoding_by_header, hfind]
  · intro v e rest hres
    simp [chosenEncoding, get_encoding_by_header, List.find?, hres]

/-- C5 witness: the amended theorem applied to the concrete
miscased-header list and to the exactly-spelled header. -/
theorem c5_content_type_exact_witness :
    chosenEncoding forLabel0
        [("content-type", "text/html; charset=utf-8")] 0 = 0 ∧
    chosenEncoding forLabel0
        [("Content-type", "text/html; charset=utf-8")] 0 = 1 :=
  ⟨((c5_content_type_exact forLabel0
      [("content-type", "text/html; charset=utf-8")] 0).1 (by decide)).2,
   (c5_content_type_exact forLabel0 [] 0).2
     "text/html; charset=utf-8" 1 [] (by decide)⟩

/-! ## Extraction loop lemmas -/

/-- Every string in the successful output of the extraction loop is the
inclusive source slice of some qualifying form node of the input and
contains the closing tag. -/
theorem extractLoop_mem {body : List Char} {fs : List FormNode} {n : Int}
    {ws : List String} (h : extractLoop body fs = Except.ok (n, ws))
    {F : String} (hF : F ∈ ws) :
    ∃ f, f ∈ fs ∧ f.qualifies = true ∧
      F = String.mk (sliceIncl body f.start f.stop) ∧
      containsClosing (sliceIncl body f.start f.stop) = true := by
  induction fs generalizing n ws with
  | nil =>
    simp only [extractLoop] at h
    cases h
    simp at hF
  | cons f rest ih =>
    simp only [extractLoop] at h
    split at h
    · next hq =>
      split at h
      · next hc =>
        cases hrec : extractLoop body rest with
        | error e => rw [hrec] at h; cases h
        | ok p =>
          obtain ⟨m, gs⟩ := p
          rw [hrec] at h
          cases h
          rcases List.mem_cons.mp hF with hFh | hFt
          · exact ⟨f, by simp, hq, hFh, hc⟩
          · obtain ⟨g, hg, hgq, hgF, hgc⟩ := ih hrec hFt
            exact ⟨g, by simp [hg], hgq, hgF, hgc⟩
      · next hc => cases h
    · next hq =>
      cases hrec : extractLoop body rest with
      | error e => rw [hrec] at h; cases h
      | ok p =>
        obtain ⟨m, gs⟩ := p
        rw [hrec] at h
        cases h
        obtain ⟨g, hg, hgq, hgF, hgc⟩ := ih hrec hF
        exact ⟨g, by simp [hg], hgq, hgF, hgc⟩

/-- If some qualifying form node's source slice lacks the closing tag,
the extraction loop fails. -/
theorem extractLoop_error_of_broken {body : List Char} {fs : List FormNode}
    (h : ∃ f, f ∈ fs ∧ f.qualifies = true ∧
      containsClosing (sliceIncl body f.start f.stop) = false) :
    ∃ e, extractLoop body fs = Except.error e := by
  induction fs with
  | nil =>
    obtain ⟨f, hf, _, _⟩ := h
    simp at hf
  | cons g rest ih =>
    obtain ⟨f, hf, hq, hc⟩ := h
    rcases List.mem_cons.mp hf with hfg | hfr
    · subst hfg
      by_cases hgc : containsClosing (sliceIncl body f.start f.stop) = true
      · rw [hgc] at hc; cases hc
      · have hgc2 : containsClosing (sliceIncl body f.start f.stop) = false :=
          Bool.not_eq_true _ ▸ (by simpa using hgc)
        exact ⟨"No closing tag in form: assuming broken HTML",
          by simp [extractLoop, hq, hgc2]⟩
    · obtain ⟨e, herr⟩ := ih ⟨f, hfr, hq, hc⟩
      by_cases hgq : g.qualifies = true
      · by_cases hgc : containsClosing (sliceIncl body g.start g.stop) = true
        · exact ⟨e, by simp [extractLoop, hgq, hgc, herr]⟩
        · have hgc2 : containsClosing (sliceIncl body g.start g.stop) = false := by
            simpa using hgc
          exact ⟨"No closing tag in form: assuming broken HTML",
            by simp [extractLoop, hgq, hgc2]⟩
      · have hgq2 : g.qualifies = false := by simpa using hgq
        exact ⟨e, by simp [extractLoop, hgq2, herr]⟩

/-- Exhaustive case analysis of `from_record` on an HTML-typed record:
extraction error with the URI present or trace off (+1 unknown
encoding); extraction error with the URI absent and trace on (skip); no
forms or no qualifying forms (+1 urls without patterns); qualifying
forms and a URI (one URLSummary); qualifying forms but no URI (skip). -/
theorem from_record_cases (t : Bool)
    (decode : List Nat → Except String (List Char))
    (parse : List Char → List FormNode) (r : WarcRecord) (ct : String)
    (hct : headerGet r.header "warc-identified-payload-type" = some ct)
    (hhtml : ct = "text/html" ∨ ct = "application/xhtml+xml") :
    (∃ e, extract_forms decode parse r.content = Except.error e ∧
      ((headerGet r.header "warc-target-uri").isSome = true ∨ t = false) ∧
      from_record t decode parse r =
        some { ArchiveSummary.zero with nr_unknown_encoding := 1 }) ∨
    (∃ e, extract_forms decode parse r.content = Except.error e ∧
      headerGet r.header "warc-target-uri" = none ∧ t = true ∧
      from_record t decode parse r = none) ∨
    (∃ n ws, extract_forms decode parse r.content = Except.ok (n, ws) ∧
      (n = 0 ∨ ws = []) ∧
      from_record t decode parse r =
        some { ArchiveSummary.zero with nr_urls_without_patterns := 1 }) ∨
    (∃ n ws url, extract_forms decode parse r.content = Except.ok (n, ws) ∧
      n ≠ 0 ∧ ws ≠ [] ∧ headerGet r.header "warc-target-uri" = some url ∧
      from_record t decode parse r =
        some { ArchiveSummary.zero with
                 nr_forms_without_patterns := n - ws.length,
                 urls_with_pattern_forms := [⟨url, ws⟩] }) ∨
    (∃ n ws, extract_forms decode parse r.content = Except.ok (n, ws) ∧
      n ≠ 0 ∧ ws ≠ [] ∧ headerGet r.header "warc-target-uri" = none ∧
      from_record t decode parse r = none) := by
  have hcond : (ct = "text/html" || ct = "application/xhtml+xml") = true := by
    rcases hhtml with h | h <;> simp [h]
  cases hex : extract_forms decode parse r.content with
  | error e =>
    cases t with
    | false =>
      exact Or.inl ⟨e, rfl, Or.inr rfl, by simp [from_record, hct, hcond, hex]⟩
    | true =>
      cases huri : headerGet r.header "warc-target-uri" with
      | none =>
        exact Or.inr (Or.inl ⟨e, rfl, rfl, rfl,
          by simp [from_record, hct, hcond, hex, huri]⟩)
      | some u =>
        exact Or.inl ⟨e, rfl, Or.inl (by simp),
          by simp [from_record, hct, hcond, hex, huri]⟩
  | ok p =>
    obtain ⟨n, ws⟩ := p
    by_cases hz : n = 0 ∨ ws = []
    · refine Or.inr (Or.inr (Or.inl ⟨n, ws, rfl, hz, ?_⟩))
      have hzb : (n = 0 || ws.isEmpty) = true := by
        rcases hz with h | h <;> simp [h]
      simp [from_record, hct, hcond, hex, hzb]
    · push_neg at hz
      have hzb : (n = 0 || ws.isEmpty) = false := by
        simp [hz.1, hz.2]
      cases huri : headerGet r.header "warc-target-uri" with
      | some u =>
        refine Or.inr (Or.inr (Or.inr (Or.inl
          ⟨n, ws, u, rfl, hz.1, hz.2, rfl, ?_⟩)))
        simp [from_record, hct, hcond, hex, hzb, huri]
      | none =>
        refine Or.inr (Or.inr (Or.inr (Or.inr
          ⟨n, ws, rfl, hz.1, hz.2, rfl, ?_⟩)))
        simp [from_record, hct, hcond, hex, hzb, huri]

/-! ## Claim C3 — record classification -/

/-- C3: for every record whose identified payload type is text/html or
application/xhtml+xml, `from_record` lands in exactly one of five
mutually exclusive outcomes: +1 `nr_unknown_encoding` on extractor
failure (when the target URI is present, or trace logging is off so the
URI interpolation is never evaluated); +1 `nr_urls_without_patterns`
when no forms or no qualifying forms come back; one appended
`URLSummary` with `nr_forms_without_patterns` increased by forms seen
minus qualifying forms; or a skip with no effect when the
`WARC-Target-URI` header is absent at a point where it is needed. -/
theorem c3_from_record_classification (t : Bool)
    (decode : List Nat → Except String (List Char))
    (parse : List Char → List FormNode) (r : WarcRecord) (ct : String)
    (hct : headerGet r.header "warc-identified-payload-type" = some ct)
    (hhtml : ct = "text/html" ∨ ct = "application/xhtml+xml") :
    (∃ e, extract_forms decode parse r.content = Except.error e ∧
      ((headerGet r.header "warc-target-uri").isSome = true ∨ t = false) ∧
      from_record t decode parse r =
        some { ArchiveSummary.zero with nr_unknown_encoding := 1 }) ∨
    (∃ e, extract_forms decode parse r.content = Except.error e ∧
      headerGet r.header "warc-target-uri" = none ∧ t = true ∧
      from_record t decode parse r = none) ∨
    (∃ n ws, extract_forms decode parse r.content = Except.ok (n, ws) ∧
      (n = 0 ∨ ws = []) ∧
      from_record t decode parse r =
        some { ArchiveSummary.zero with nr_urls_without_patterns := 1 }) ∨
    (∃ n ws url, extract_forms decode parse r.content = Except.ok (n, ws) ∧
      n ≠ 0 ∧ ws ≠ [] ∧ headerGet r.header "warc-target-uri" = some url ∧
      from_record t decode parse r =
        some { ArchiveSummary.zero with
                 nr_forms_without_patterns := n - ws.length,
                 urls_with_pattern_forms := [⟨url, ws⟩] }) ∨
    (∃ n ws, extract_forms decode parse r.content = Except.ok (n, ws) ∧
      n ≠ 0 ∧ ws ≠ [] ∧ headerGet r.header "warc-target-uri" = none ∧
      from_record t decode parse r = none) :=
  from_record_cases t decode parse r ct hct hhtml

/-- C3 witness: the classification applied to a concrete undecodable
HTML record with trace logging off, resolved to its computed outcome. -/
theorem c3_from_record_classification_witness :
    from_record false decode0 parse0 rec0 =
      some { ArchiveSummary.zero with nr_unknown_encoding := 1 } := by
  have hval : extract_forms decode0 parse0 rec0.content =
      Except.error "Error decoding body" := rfl
  rcases c3_from_record_classification false decode0 parse0 rec0 "text/html"
      (by decide) (Or.inl rfl) with
    ⟨e, hex, hcase, hout⟩ | ⟨e, hex, huri, ht, hout⟩ |
    ⟨n, ws, hex, hz, hout⟩ | ⟨n, ws, u, hex, hn, hw, huri, hout⟩ |
    ⟨n, ws, hex, hn, hw, huri, hout⟩
  · exact hout
  · cases ht
  · rw [hval] at hex; cases hex
  · rw [hval] at hex; cases hex
  · rw [hval] at hex; cases hex

/-! ## Claim C4 — shape of stored forms -/

/-- C4: every form string stored in the `with_patterns` list of a
`URLSummary` produced by `from_record` contains the substring closing a
form and — granted the `tl` parser's guarantee that a form node's source
slice begins with its `<form` opening tag in some letter case — starts
with `<form` case-insensitively. -/
theorem c4_stored_forms_shape (t : Bool)
    (decode : List Nat → Except String (List Char))
    (parse : List Char → List FormNode) (r : WarcRecord)
    (a : ArchiveSummary) (u : URLSummary) (F : String)
    (hparser : ∀ body f, f ∈ parse body →
      startsWithFormCI (sliceIncl body f.start f.stop) = true)
    (ha : from_record t decode parse r = some a)
    (hu : u ∈ a.urls_with_pattern_forms)
    (hF : F ∈ u.with_patterns) :
    closingTag <:+: F.data ∧ startsWithFormCI F.data = true := by
  have hsome : (headerGet r.header "warc-identified-payload-type").isSome = true := by
    by_contra hnone
    have h1 : headerGet r.header "warc-identified-payload-type" = none :=
      Option.not_isSome_iff_eq_none.mp hnone
    rw [from_record, h1] at ha
    cases ha
  obtain ⟨ct, hct⟩ := Option.isSome_iff_exists.mp hsome
  by_cases hhtml : ct = "text/html" ∨ ct = "application/xhtml+xml"
  · rcases from_record_cases t decode parse r ct hct hhtml with
      ⟨e, hex, hcase, hout⟩ | ⟨e, hex, huri, ht, hout⟩ |
      ⟨n, ws, hex, hz, hout⟩ | ⟨n, ws, url, hex, hn, hw, huri, hout⟩ |
      ⟨n, ws, hex, hn, hw, huri, hout⟩
    · rw [hout] at ha
      cases ha
      simp [ArchiveSummary.zero] at hu
    · rw [hout] at ha
      cases ha
    · rw [hout] at ha
      cases ha
      simp [ArchiveSummary.zero] at hu
    · rw [hout] at ha
      cases ha
      simp only [List.mem_singleton] at hu
      subst hu
      simp only at hF
      unfold extract_forms at hex
      cases hdec : decode r.content with
      | error e2 => rw [hdec] at hex; cases hex
      | ok body =>
        rw [hdec] at hex
        obtain ⟨f, hf, hfq, hFs, hfc⟩ := extractLoop_mem hex hF
        subst hFs
        exact ⟨of_decide_eq_true hfc, hparser body f hf⟩
    · rw [hout] at ha
      cases ha
  · have hcond : (ct = "text/html" || ct = "application/xhtml+xml") = false := by
      push_neg at hhtml
      simp [hhtml.1, hhtml.2]
    rw [from_record, hct] at ha
    simp only [hcond] at ha
    cases ha

/-- C4 witness: the theorem applied to a concrete record whose one
qualifying form is the complete 30-character form fixture. -/
theorem c4_stored_forms_shape_witness :
    closingTag <:+: goodForm.data ∧ startsWithFormCI goodForm.data = true := by
  refine c4_stored_forms_shape false decode2 parse2 rec3
    { ArchiveSummary.zero with urls_with_pattern_forms := [⟨"u", [goodForm]⟩] }
    ⟨"u", [goodForm]⟩ goodForm ?_ (by decide) (by decide) (by decide)
  intro body f hf
  unfold parse2 at hf
  split at hf
  · next hb =>
    subst hb
    simp only [List.mem_singleton] at hf
    subst hf
    decide
  · simp at hf

/-! ## Claim C9 — truncated qualifying form fails the whole record -/

/-- C9 counterexample: extraction of a record holding a qualifying form
with no closing tag does fail, but when the record also lacks a
`WARC-Target-URI` header (and trace logging is enabled) the record is
skipped entirely — `from_record` yields no summary at all instead of
the +1 to `nr_unknown_encoding` the claim promises: the missing URI
aborts `from_record` from inside the trace-message interpolation. -/
theorem c9_broken_form_cex :
    extract_forms decode1 parse1 rec0.content =
      Except.error "No closing tag in form: assuming broken HTML" ∧
    from_record true decode1 parse1 rec0 = none := by
  exact ⟨rfl, rfl⟩

/-- C9 (amended): if the decoded body parses to form nodes among which
some qualifying form's source slice lacks the closing tag, the whole
record's extraction fails, and — provided the record carries a
`WARC-Target-URI` header (or trace logging is disabled) — the record
contributes exactly +1 to `nr_unknown_encoding` and no `URLSummary`. -/
theorem c9_broken_form_amended (t : Bool)
    (decode : List Nat → Except String (List Char))
    (parse : List Char → List FormNode) (r : WarcRecord)
    (body : List Char) (ct : String)
    (hdec : decode r.content = Except.ok body)
    (hbroken : ∃ f, f ∈ parse body ∧ f.qualifies = true ∧
      containsClosing (sliceIncl body f.start f.stop) = false)
    (hct : headerGet r.header "warc-identified-payload-type" = some ct)
    (hhtml : ct = "text/html" ∨ ct = "application/xhtml+xml")
    (huri : (headerGet r.header "warc-target-uri").isSome = true ∨ t = false) :
    ∃ e, extract_forms decode parse r.content = Except.error e ∧
      from_record t decode parse r =
        some { ArchiveSummary.zero with nr_unknown_encoding := 1 } := by
  obtain ⟨e, herr⟩ := extractLoop_error_of_broken hbroken
  have hex : extract_forms decode parse r.content = Except.error e := by
    simp only [extract_forms, hdec]
    exact herr
  have hcond : (ct = "text/html" || ct = "application/xhtml+xml") = true := by
    rcases hhtml with h | h <;> simp [h]
  refine ⟨e, hex, ?_⟩
  cases t with
  | false => simp [from_record, hct, hcond, hex]
  | true =>
    rcases huri with huri | huri
    · obtain ⟨u, hu⟩ := Option.isSome_iff_exists.mp huri
      simp [from_record, hct, hcond, hex, hu]
    · cases huri

/-- C9 witness: the amended theorem applied to the truncated-form
fixtures and a record that does carry a target URI. -/
theorem c9_broken_form_witness :
    ∃ e, extract_forms decode1 parse1 rec2.content = Except.error e ∧
      from_record true decode1 parse1 rec2 =
        some { ArchiveSummary.zero with nr_unknown_encoding := 1 } :=
  c9_broken_form_amended true decode1 parse1 rec2 brokenBody "text/html"
    rfl ⟨⟨0, 22, true⟩, by decide, rfl, by decide⟩ (by decide) (Or.inl rfl)
    (Or.inl (by decide))

/-! ## Claim C8 — pattern enumeration order -/

/-- C8: `patterns_in` emits, for each `<input>` of the re-parsed
fragment, the UTF-8 values of its pattern, data-val-regex-pattern and
ng-pattern attributes in exactly that order per input, a value appearing
only when the attribute is present: the selector's restriction to inputs
carrying one of the three attributes never changes the result, so
`patterns_in` coincides with the spec-side enumeration over all inputs. -/
theorem c8_patterns_in_eq_spec (dec : List Nat → Option String)
    (inputs : List InputTag) :
    patterns_in dec inputs = patterns_in_spec dec inputs := by
  induction inputs with
  | nil => rfl
  | cons tag rest ih =>
    by_cases h : hasPatternAttr tag = true
    · have h1 : patterns_in dec (tag :: rest) =
          tagPatterns dec tag ++ patterns_in dec rest := by
        simp [patterns_in, List.filter_cons, h]
      rw [h1, ih]
      simp [patterns_in_spec]
    · have hf : hasPatternAttr tag = false := by simpa using h
      have h1 : patterns_in dec (tag :: rest) = patterns_in dec rest := by
        simp [patterns_in, List.filter_cons, hf]
      rw [h1, ih]
      have h2 : tagPatterns dec tag = [] := by
        have hp : attrGet tag "pattern" = none := by
          cases hg : attrGet tag "pattern" with
          | none => rfl
          | some v => simp [hasPatternAttr, hg] at hf
        have hd : attrGet tag "data-val-regex-pattern" = none := by
          cases hg : attrGet tag "data-val-regex-pattern" with
          | none => rfl
          | some v => simp [hasPatternAttr, hg] at hf
        have hn : attrGet tag "ng-pattern" = none := by
          cases hg : attrGet tag "ng-pattern" with
          | none => rfl
          | some v => simp [hasPatternAttr, hg] at hf
        simp [tagPatterns, attrPattern, hp, hd, hn]
      simp [patterns_in_spec, h2]

end BoCC
